import Mathlib

/-!
Verification of the parsing/matching core of the transcript generator
(`scripts/generate-transcript.py`).

Strings are modelled as lists of characters (`Str`), and the Python string
operations used by the source (`str.strip`, `str.split('\n')[0]`,
`str.startswith`) are given as executable Lean functions.  Python's `strip`
removes leading and trailing whitespace; the source only ever feeds it
ASCII text, so whitespace is modelled as the six ASCII whitespace
characters Python recognises.
-/

abbrev Str := List Char

/-- Whitespace characters removed by Python `str.strip()` (ASCII subset). -/
def isSpace (c : Char) : Bool :=
  c == ' ' || c == '\t' || c == '\n' || c == '\r' || c == '\x0b' || c == '\x0c'

/-- Python `s.lstrip()`: drop leading whitespace. -/
def lstrip (s : Str) : Str := s.dropWhile isSpace

/-- Python `s.rstrip()`: drop trailing whitespace. -/
def rstrip (s : Str) : Str := (s.reverse.dropWhile isSpace).reverse

/-- Python `s.strip()`: drop leading and trailing whitespace. -/
def strip (s : Str) : Str := rstrip (lstrip s)

/-- Python `s.split('\n')[0]`: the characters before the first newline. -/
def splitFirstLine (s : Str) : Str := s.takeWhile (fun c => c != '\n')

/-! Basic lemmas about the string primitives. -/

lemma length_dropWhile_le (p : Char → Bool) (l : Str) :
    (l.dropWhile p).length ≤ l.length := by
  induction l with
  | nil => simp
  | cons a t ih =>
    cases hp : p a with
    | true => simp only [List.dropWhile_cons, hp, if_true]; exact ih.trans (Nat.le_succ _)
    | false => simp [List.dropWhile_cons, hp]

lemma dropWhile_cons_not {p : Char → Bool} {l : Str} {c : Char} {t : Str}
    (h : l.dropWhile p = c :: t) : p c = false := by
  induction l with
  | nil => simp at h
  | cons a u ih =>
    cases hp : p a with
    | true =>
      rw [List.dropWhile_cons, if_pos hp] at h
      exact ih h
    | false =>
      rw [List.dropWhile_cons, if_neg (by simp [hp])] at h
      injection h with h1 h2
      rw [← h1]
      exact hp

lemma head_not_space_of_lstrip_self {d : Char} {t : Str} (h : lstrip (d :: t) = d :: t) :
    isSpace d = false := by
  cases hd : isSpace d with
  | false => rfl
  | true =>
    exfalso
    have h1 : lstrip (d :: t) = lstrip t := by simp [lstrip, List.dropWhile_cons, hd]
    have h2 : (lstrip t).length ≤ t.length := length_dropWhile_le _ _
    rw [h] at h1
    have := congrArg List.length h1
    simp only [List.length_cons] at this
    omega

lemma lstrip_lstrip (l : Str) : lstrip (lstrip l) = lstrip l := by
  cases h : lstrip l with
  | nil => rfl
  | cons c t =>
    have hc : isSpace c = false := dropWhile_cons_not (p := isSpace) h
    simp [lstrip, List.dropWhile_cons, hc]

lemma rstrip_exists_ws (l : Str) :
    ∃ w : Str, l = rstrip l ++ w ∧ ∀ c ∈ w, isSpace c = true := by
  refine ⟨(l.reverse.takeWhile isSpace).reverse, ?_, ?_⟩
  · have h2 : l.reverse.reverse
        = (List.takeWhile isSpace l.reverse ++ List.dropWhile isSpace l.reverse).reverse := by
      rw [List.takeWhile_append_dropWhile]
    rw [List.reverse_reverse, List.reverse_append] at h2
    exact h2
  · intro c hc
    rw [List.mem_reverse] at hc
    exact List.mem_takeWhile_imp hc

lemma rstrip_pfx (l : Str) : rstrip l <+: l := by
  obtain ⟨w, hw, _⟩ := rstrip_exists_ws l
  exact ⟨w, hw.symm⟩

lemma rstrip_append_ws {w : Str} (l : Str) (h : ∀ c ∈ w, isSpace c = true) :
    rstrip (l ++ w) = rstrip l := by
  have hnil : w.reverse.dropWhile isSpace = [] := by
    rw [List.dropWhile_eq_nil_iff]
    intro x hx
    exact h x (List.mem_reverse.mp hx)
  simp [rstrip, List.reverse_append, List.dropWhile_append, hnil]

lemma rstrip_idem (l : Str) : rstrip (rstrip l) = rstrip l := by
  obtain ⟨w, hw, hws⟩ := rstrip_exists_ws l
  conv_rhs => rw [hw]
  rw [rstrip_append_ws _ hws]

lemma lstrip_of_prefix {a b : Str} (hab : a <+: b) (hb : lstrip b = b) :
    lstrip a = a := by
  cases ha : a with
  | nil => rfl
  | cons c t =>
    subst ha
    cases hb0 : b with
    | nil =>
      obtain ⟨r, hr⟩ := hb0 ▸ hab
      simp at hr
    | cons d u =>
      subst hb0
      have hd : isSpace d = false := head_not_space_of_lstrip_self hb
      obtain ⟨r, hr⟩ := hab
      rw [List.cons_append] at hr
      injection hr with h1 h2
      simp [lstrip, List.dropWhile_cons, h1, hd]

lemma lstrip_rstrip {l : Str} (h : lstrip l = l) : lstrip (rstrip l) = rstrip l :=
  lstrip_of_prefix (rstrip_pfx l) h

lemma lstrip_takeWhile {l : Str} (h : lstrip l = l) (q : Char → Bool) :
    lstrip (l.takeWhile q) = l.takeWhile q :=
  lstrip_of_prefix (List.takeWhile_prefix q) h

lemma mem_getLast?_self {a : Char} {l : Str} (h : l.getLast? = some a) : a ∈ l := by
  obtain ⟨hne, heq⟩ := List.mem_getLast?_eq_getLast (l := l) (x := a) h
  rw [heq]
  exact List.getLast_mem hne

lemma pfx_rstrip_iff {p : Str} {c : Char} (l : Str)
    (hlast : p.getLast? = some c) (hc : isSpace c = false) :
    p <+: rstrip l ↔ p <+: l := by
  obtain ⟨w, hw, hws⟩ := rstrip_exists_ws l
  constructor
  · intro h
    exact h.trans (rstrip_pfx l)
  · intro h
    rcases List.prefix_or_prefix_of_prefix h (rstrip_pfx l) with h1 | h1
    · exact h1
    · obtain ⟨r, hr⟩ := h1
      rcases List.eq_nil_or_concat r with rfl | ⟨r', a, rfl⟩
      · rw [← hr]
        simp
      · exfalso
        have hform : r'.concat a = r' ++ [a] := List.concat_eq_append r' a
        have hpw : p <+: rstrip l ++ w := by rw [← hw]; exact h
        rw [← hr, hform] at hpw
        have hrw : r' ++ [a] <+: w := (List.prefix_append_right_inj (rstrip l)).mp hpw
        have halast : p.getLast? = some a := by
          rw [← hr, hform, List.getLast?_append_of_ne_nil _ (by simp), List.getLast?_concat]
        have hac : a = c := by
          rw [halast] at hlast
          exact Option.some.inj hlast
        have haw : a ∈ w := hrw.subset (by simp)
        rw [hac] at haw
        rw [hws c haw] at hc
        exact Bool.true_eq_false.mp hc

lemma takeWhile_append_of_all {xs ys : Str} {q : Char → Bool}
    (h : ∀ x ∈ xs, q x = true) :
    (xs ++ ys).takeWhile q = xs ++ ys.takeWhile q := by
  rw [List.takeWhile_append, List.takeWhile_eq_self_iff.mpr h]
  simp

lemma takeWhile_append_of_stop {xs ys : Str} {q : Char → Bool}
    (h : ¬ ∀ x ∈ xs, q x = true) :
    (xs ++ ys).takeWhile q = xs.takeWhile q := by
  rw [List.takeWhile_append, if_neg]
  intro hlen
  exact h (List.takeWhile_eq_self_iff.mp
    ((List.takeWhile_prefix q).eq_of_length hlen))

lemma dropWhile_append_of_ne_nil {xs ys : Str} {p : Char → Bool}
    (h : xs.dropWhile p ≠ []) :
    (xs ++ ys).dropWhile p = xs.dropWhile p ++ ys := by
  rw [List.dropWhile_append, if_neg]
  simpa using h

/-- Normal form of the source's repeated pattern
`text.strip().split('\n')[0].strip()`: it equals the first line of the
left-stripped text with trailing whitespace removed. -/
lemma firstline_norm (X : Str) :
    strip (splitFirstLine (strip X)) = rstrip (splitFirstLine (lstrip X)) := by
  have hAinv := lstrip_lstrip X
  have hBinv : lstrip (rstrip (lstrip X)) = rstrip (lstrip X) := lstrip_rstrip hAinv
  obtain ⟨w, hw, hws⟩ := rstrip_exists_ws (lstrip X)
  simp only [strip, splitFirstLine]
  by_cases hall : ∀ x ∈ rstrip (lstrip X), (x != '\n') = true
  · have h1 : (rstrip (lstrip X)).takeWhile (fun c => c != '\n') = rstrip (lstrip X) :=
      List.takeWhile_eq_self_iff.mpr hall
    have h2 : (lstrip X).takeWhile (fun c => c != '\n')
        = rstrip (lstrip X) ++ w.takeWhile (fun c => c != '\n') := by
      conv_lhs => rw [hw]
      exact takeWhile_append_of_all hall
    have hsub : ∀ c ∈ w.takeWhile (fun c => c != '\n'), isSpace c = true :=
      fun c hc => hws c ((List.takeWhile_prefix _).subset hc)
    rw [h1, h2, rstrip_append_ws _ hsub, hBinv]
  · have h2 : (lstrip X).takeWhile (fun c => c != '\n')
        = (rstrip (lstrip X)).takeWhile (fun c => c != '\n') := by
      conv_lhs => rw [hw]
      exact takeWhile_append_of_stop hall
    rw [h2, lstrip_takeWhile hBinv]

/-! Steno command detection (source lines 517-571). -/

/-- Verb tokens of `STENO_VERBS` (source line 518). -/
def STENO_VERBS : List Str :=
  [r"dx".toList, r"ch".toList, r"mk".toList, r"rm".toList, r"rn".toList,
   r"cp".toList, r"mv".toList, r"viz".toList, r"stat".toList, r"fork".toList,
   r"switch".toList, r"compare".toList, r"merge".toList, r"abandon".toList,
   r"steno".toList]

/-- Matching the compiled regex `STENO_PATTERN = ^(dx|ch|...|steno):` against
a line (source line 519): the anchored regex matches exactly when some verb
followed by a colon is a prefix of the line. -/
def stenoPatternMatch (line : Str) : Bool :=
  STENO_VERBS.any (fun v => (v ++ [':']).isPrefixOf line)

/-- Source `is_steno_command` (lines 565-571): empty text is rejected, else the
first line of the stripped text is stripped again and matched against the
pattern. -/
def is_steno_command (text : Str) : Bool :=
  if text.isEmpty then false
  else stenoPatternMatch (strip (splitFirstLine (strip text)))

/-- Claim C1: for every input text, `is_steno_command` returns true iff the
first line of the trimmed text starts with one of the fifteen verbs
immediately followed by a colon; matching is case-sensitive, anchored at the
start of that first line, and later lines cannot influence the result. -/
theorem C1_is_steno_command_iff_verb_colon (text : Str) :
    is_steno_command text = true ↔
      ∃ v ∈ STENO_VERBS, (v ++ [':']) <+: splitFirstLine (strip text) := by
  have hstrip_inv : lstrip (strip text) = strip text := by
    simp only [strip]
    exact lstrip_rstrip (lstrip_lstrip text)
  have hLinv : lstrip (splitFirstLine (strip text)) = splitFirstLine (strip text) := by
    simp only [splitFirstLine]
    exact lstrip_takeWhile hstrip_inv _
  have hL : strip (splitFirstLine (strip text)) = rstrip (splitFirstLine (strip text)) := by
    have hdef : strip (splitFirstLine (strip text))
        = rstrip (lstrip (splitFirstLine (strip text))) := rfl
    rw [hdef, hLinv]
  unfold is_steno_command
  split
  · next hempty =>
    rw [List.isEmpty_iff] at hempty
    subst hempty
    simp only [Bool.false_eq_true, false_iff]
    rintro ⟨v, hv, hp⟩
    have h0 : splitFirstLine (strip ([] : Str)) = [] := rfl
    rw [h0] at hp
    obtain ⟨r, hr⟩ := hp
    simp at hr
  · rw [hL]
    unfold stenoPatternMatch
    rw [List.any_eq_true]
    constructor
    · rintro ⟨v, hv, hb⟩
      refine ⟨v, hv, ?_⟩
      exact (pfx_rstrip_iff _ (List.getLast?_concat v) (by decide)).mp
        (List.isPrefixOf_iff_prefix.mp hb)
    · rintro ⟨v, hv, hp⟩
      refine ⟨v, hv, ?_⟩
      exact List.isPrefixOf_iff_prefix.mpr
        ((pfx_rstrip_iff _ (List.getLast?_concat v) (by decide)).mpr hp)

/-- Claim C9: appending trailing lines to a detected command text does not
change the detection result; detection depends only on the first line of the
trimmed text. -/
theorem C9_detection_ignores_trailing_lines (text extra : Str)
    (h : is_steno_command text = true) :
    is_steno_command (text ++ '\n' :: extra) = true := by
  unfold is_steno_command at h ⊢
  have hte : text.isEmpty = false := by
    cases hte : text.isEmpty
    · rfl
    · rw [if_pos hte] at h
      exact absurd h (by simp)
  rw [if_neg (by simp [hte])] at h
  rw [if_neg (by simp)]
  rw [firstline_norm] at h
  rw [firstline_norm]
  simp only [lstrip] at h ⊢
  have hlst : text.dropWhile isSpace ≠ [] := by
    intro h0
    rw [h0] at h
    have hfalse : stenoPatternMatch (rstrip (splitFirstLine ([] : Str))) = false := by decide
    rw [hfalse] at h
    exact absurd h (by simp)
  rw [dropWhile_append_of_ne_nil hlst]
  have hsplit : splitFirstLine (text.dropWhile isSpace ++ '\n' :: extra)
      = splitFirstLine (text.dropWhile isSpace) := by
    simp only [splitFirstLine]
    by_cases hall : ∀ x ∈ text.dropWhile isSpace, (x != '\n') = true
    · rw [takeWhile_append_of_all hall, List.takeWhile_eq_self_iff.mpr hall]
      simp [List.takeWhile_cons]
    · exact takeWhile_append_of_stop hall
  rw [hsplit]
  exact h

/-- Witness for C9 at a concrete input. -/
theorem C9_detection_ignores_trailing_lines_witness :
    is_steno_command (r"mk: checkpoint".toList) = true ∧
    is_steno_command (r"mk: checkpoint".toList ++ '\n' :: r"more text".toList) = true :=
  ⟨by decide, C9_detection_ignores_trailing_lines _ _ (by decide)⟩

/-! Steno node matching (source lines 574-591). -/

/-- A steno node object as stored in the graph JSON documents.  The source
reads its keys with `.get(...)` (or `["id"]`), so each field is optional and
`none` models an absent key. -/
structure RawNode where
  id : Option Str := none
  raw : Option Str := none
  status : Option Str := none
  branch : Option Str := none
  summary : Option Str := none
  deriving DecidableEq

/-- Loop of `match_message_to_node` (source lines 582-589): scan the nodes in
iteration order and return the first one whose `raw` text (default empty)
equals the first line, is a prefix of it, or has it as a prefix. -/
def matchLoop (first_line : Str) : List (Str × RawNode) → Option RawNode
  | [] => none
  | (_, node) :: rest =>
    let raw := node.raw.getD []
    if raw == first_line then some node
    else if raw.isPrefixOf first_line || first_line.isPrefixOf raw then some node
    else matchLoop first_line rest

/-- Source `match_message_to_node` (lines 574-591). -/
def match_message_to_node (message_content : Str)
    (steno_nodes : List (Str × RawNode)) : Option RawNode :=
  if message_content.isEmpty || steno_nodes.isEmpty then none
  else matchLoop (strip (splitFirstLine (strip message_content))) steno_nodes

/-- Criterion worded as in the spec: the stored raw command text exactly
equals the trimmed first line of the message, or is a prefix of that first
line, or has that first line as its own prefix. -/
def specNodeMatches (first_line : Str) (node : RawNode) : Bool :=
  node.raw.getD [] == first_line
    || (node.raw.getD []).isPrefixOf first_line
    || first_line.isPrefixOf (node.raw.getD [])

lemma matchLoop_eq_find? (fl : Str) (l : List (Str × RawNode)) :
    matchLoop fl l = (l.find? (fun p => specNodeMatches fl p.2)).map Prod.snd := by
  induction l with
  | nil => rfl
  | cons p rest ih =>
    obtain ⟨k, node⟩ := p
    cases hA : (node.raw.getD [] == fl) with
    | true => simp [matchLoop, List.find?_cons, specNodeMatches, hA]
    | false =>
      cases hB : (node.raw.getD []).isPrefixOf fl with
      | true => simp [matchLoop, List.find?_cons, specNodeMatches, hA, hB]
      | false =>
        cases hC : fl.isPrefixOf (node.raw.getD []) with
        | true => simp [matchLoop, List.find?_cons, specNodeMatches, hA, hB, hC]
        | false => simp [matchLoop, List.find?_cons, specNodeMatches, hA, hB, hC, ih]

/-- Claim C2: for non-empty message content and a non-empty nodes mapping,
`match_message_to_node` returns the first node in iteration order satisfying
the three-way criterion against the trimmed first line (none if no node
does), and in particular node raw text `mk: foo` matches message first line
`mk: foo bar`. -/
theorem C2_match_first_node (mc : Str) (ns : List (Str × RawNode))
    (h1 : mc ≠ []) (h2 : ns ≠ []) :
    (match_message_to_node mc ns
      = (ns.find? (fun p => specNodeMatches (strip (splitFirstLine (strip mc))) p.2)).map
          Prod.snd)
    ∧ match_message_to_node (r"mk: foo bar".toList)
        [(r"n_1".toList, { raw := some (r"mk: foo".toList) })]
      = some { raw := some (r"mk: foo".toList) } := by
  constructor
  · unfold match_message_to_node
    rw [if_neg (by simp [List.isEmpty_eq_false.mpr h1, List.isEmpty_eq_false.mpr h2])]
    exact matchLoop_eq_find? _ _
  · decide

/-- Witness for C2 at a concrete input. -/
theorem C2_match_first_node_witness :
    match_message_to_node (r"mk: foo bar".toList)
        [(r"n_1".toList, { raw := some (r"mk: foo".toList) })]
      = (([(r"n_1".toList, ({ raw := some (r"mk: foo".toList) } : RawNode))].find?
          (fun p => specNodeMatches
            (strip (splitFirstLine (strip (r"mk: foo bar".toList)))) p.2)).map Prod.snd) :=
  (C2_match_first_node (r"mk: foo bar".toList)
    [(r"n_1".toList, { raw := some (r"mk: foo".toList) })]
    (by decide) (by decide)).1

/-- Claim C10: a nodes mapping containing a node whose raw command text is
absent or empty makes `match_message_to_node` return some node for every
non-empty message, because the empty raw text is a prefix of every first
line. -/
theorem C10_empty_raw_always_matches (mc : Str) (ns : List (Str × RawNode))
    (h1 : mc ≠ []) (h2 : ∃ p ∈ ns, p.2.raw = none ∨ p.2.raw = some []) :
    ∃ n, match_message_to_node mc ns = some n := by
  obtain ⟨p0, hp0, hraw⟩ := h2
  have hns : ns ≠ [] := by
    rintro rfl
    simp at hp0
  unfold match_message_to_node
  rw [if_neg (by simp [List.isEmpty_eq_false.mpr h1, List.isEmpty_eq_false.mpr hns])]
  rw [matchLoop_eq_find?]
  have hmatch : specNodeMatches (strip (splitFirstLine (strip mc))) p0.2 = true := by
    have hget : p0.2.raw.getD [] = [] := by
      rcases hraw with h | h <;> simp [h]
    have hpre : (([] : Str).isPrefixOf (strip (splitFirstLine (strip mc)))) = true :=
      List.isPrefixOf_iff_prefix.mpr List.nil_prefix
    simp [specNodeMatches, hget, hpre]
  have hsome : (ns.find?
      (fun p => specNodeMatches (strip (splitFirstLine (strip mc))) p.2)).isSome = true :=
    List.find?_isSome.mpr ⟨p0, hp0, hmatch⟩
  obtain ⟨x, hfind⟩ := Option.isSome_iff_exists.mp hsome
  refine ⟨x.2, ?_⟩
  rw [hfind]
  rfl

/-- Witness for C10 at a concrete input. -/
theorem C10_empty_raw_always_matches_witness :
    ∃ n, match_message_to_node (r"hello world".toList)
        [(r"n_9".toList, ({ raw := none } : RawNode))] = some n :=
  C10_empty_raw_always_matches (r"hello world".toList)
    [(r"n_9".toList, { raw := none })] (by decide) (by decide)

/-! Steno graph loading (source lines 522-562). -/

/-- Model of Python `d[k] = v` on a string-keyed dict kept as an association
list in insertion order: update in place when the key exists, else append. -/
def dictSet {α : Type} (m : List (Str × α)) (k : Str) (v : α) : List (Str × α) :=
  if m.any (fun p => p.1 == k) then m.map (fun p => if p.1 == k then (k, v) else p)
  else m ++ [(k, v)]

/-- Model of Python `d.get(k)` on the same representation. -/
def dictGet {α : Type} (m : List (Str × α)) (k : Str) : Option α :=
  (m.find? (fun p => p.1 == k)).map (fun p => p.2)

lemma dictGet_map_set_ne {α : Type} (m : List (Str × α)) (k k' : Str) (v : α)
    (h : k' ≠ k) :
    dictGet (m.map (fun p => if p.1 == k then (k, v) else p)) k' = dictGet m k' := by
  induction m with
  | nil => rfl
  | cons a t ih =>
    simp only [List.map_cons]
    unfold dictGet at ih ⊢
    by_cases ha : a.1 = k
    · rw [if_pos (beq_iff_eq.mpr ha)]
      rw [List.find?_cons_of_neg (p := fun p => p.1 == k') (a := ((k, v) : Str × α)) _
        (by simp [beq_eq_false_iff_ne.mpr (Ne.symm h)])]
      rw [List.find?_cons_of_neg (p := fun p => p.1 == k') (a := a) _
        (by simp [ha, beq_eq_false_iff_ne.mpr (Ne.symm h)])]
      exact ih
    · rw [if_neg (by simp [beq_eq_false_iff_ne.mpr ha])]
      by_cases hk' : a.1 = k'
      · rw [List.find?_cons_of_pos (p := fun p => p.1 == k') (a := a) _ (beq_iff_eq.mpr hk'),
          List.find?_cons_of_pos (p := fun p => p.1 == k') (a := a) _ (beq_iff_eq.mpr hk')]
      · rw [List.find?_cons_of_neg (p := fun p => p.1 == k') (a := a) _
            (by simp [beq_eq_false_iff_ne.mpr hk']),
          List.find?_cons_of_neg (p := fun p => p.1 == k') (a := a) _
            (by simp [beq_eq_false_iff_ne.mpr hk'])]
        exact ih

lemma dictGet_map_set_eq {α : Type} (m : List (Str × α)) (k : Str) (v : α)
    (hmem : m.any (fun p => p.1 == k) = true) :
    dictGet (m.map (fun p => if p.1 == k then (k, v) else p)) k = some v := by
  induction m with
  | nil => simp at hmem
  | cons a t ih =>
    simp only [List.map_cons]
    unfold dictGet at ih ⊢
    by_cases ha : a.1 = k
    · rw [if_pos (beq_iff_eq.mpr ha)]
      rw [List.find?_cons_of_pos (p := fun p => p.1 == k) (a := ((k, v) : Str × α)) _
        (by simp)]
      rfl
    · have h1 : (a.1 == k) = false := beq_eq_false_iff_ne.mpr ha
      have hmem' : t.any (fun p => p.1 == k) = true := by
        simp only [List.any_cons, h1, Bool.false_or] at hmem
        exact hmem
      rw [if_neg (by simp [h1])]
      rw [List.find?_cons_of_neg (p := fun p => p.1 == k) (a := a) _ (by simp [h1])]
      exact ih hmem'

lemma dictGet_dictSet {α : Type} (m : List (Str × α)) (k k' : Str) (v : α) :
    dictGet (dictSet m k v) k' = if k' = k then some v else dictGet m k' := by
  unfold dictSet
  cases hmem : m.any (fun p => p.1 == k) with
  | true =>
    simp only [if_true]
    by_cases hk : k' = k
    · subst hk
      rw [if_pos rfl]
      exact dictGet_map_set_eq m k' v hmem
    · rw [if_neg hk]
      exact dictGet_map_set_ne m k k' v hk
  | false =>
    simp only [Bool.false_eq_true, if_false]
    by_cases hk : k' = k
    · subst hk
      have hnone : m.find? (fun p => p.1 == k') = none := by
        rw [List.find?_eq_none]
        intro x hx hpx
        have : m.any (fun p => p.1 == k') = true := List.any_eq_true.mpr ⟨x, hx, hpx⟩
        rw [hmem] at this
        exact absurd this (by simp)
      rw [if_pos rfl]
      simp [dictGet, List.find?_append, hnone, List.find?_cons]
    · rw [if_neg hk]
      have hone : List.find? (fun p => p.1 == k') [(k, v)] = none := by
        simp [List.find?_cons, beq_eq_false_iff_ne.mpr (Ne.symm hk)]
      simp [dictGet, List.find?_append, hone]

/-- A branch object from the aggregate graph document. -/
structure Branch where
  name : Option Str := none
  parentNode : Option Str := none
  status : Option Str := none
  nodes : List Str := []
  deriving DecidableEq

/-- One entry of the aggregate document's `sessions` list; the source only
reads its `nodes` key (`session.get("nodes", [])`). -/
structure SessionObj where
  nodes : List RawNode := []
  deriving DecidableEq

/-- The decoded aggregate graph document (`graph.json`): `sessions`,
`branches` and `bookmarks` with the `.get` defaults already applied. -/
structure GraphDoc where
  sessions : List SessionObj := []
  branches : List Branch := []
  bookmarks : List (Str × Str) := []
  deriving DecidableEq

/-- The decoded current-session document (`current-session.json`). -/
structure CurrentDoc where
  nodes : List RawNode := []
  deriving DecidableEq

/-- The dictionary returned by `load_steno_data`. -/
structure StenoData where
  nodes : List (Str × RawNode)
  branches : List Branch
  bookmarks : List (Str × Str)
  deriving DecidableEq

/-- The loop `nodes[node["id"]] = node` over one node list (source lines
541-542 and 553-554).  A node without an `"id"` key raises `KeyError`,
aborting the loop; the boolean records whether the loop ran to completion. -/
def insertNodes (acc : List (Str × RawNode)) :
    List RawNode → List (Str × RawNode) × Bool
  | [] => (acc, true)
  | n :: rest =>
    match n.id with
    | none => (acc, false)
    | some k => insertNodes (dictSet acc k n) rest

/-- The loop over `graph.get("sessions", [])` (source lines 540-542); a
`KeyError` escaping the inner loop aborts the remaining sessions too. -/
def insertSessions (acc : List (Str × RawNode)) :
    List SessionObj → List (Str × RawNode) × Bool
  | [] => (acc, true)
  | s :: rest =>
    let r := insertNodes acc s.nodes
    if r.2 then insertSessions r.1 rest else (r.1, false)

/-- Source `load_steno_data` (lines 522-562), over already-decoded JSON
documents.  `none` stands for an absent file or one whose JSON decoding
fails: `json.load` is the first statement of the `try` block, so that
failure leaves no assignment behind.  A `KeyError` raised later (a node
without `"id"`) is caught by the same `except` clause after `branches` and
`bookmarks` were already assigned and earlier nodes already inserted, so
those assignments survive. -/
def load_steno_data (graph : Option GraphDoc) (current : Option CurrentDoc) :
    StenoData :=
  let branches := match graph with
    | none => []
    | some g => g.branches
  let bookmarks := match graph with
    | none => []
    | some g => g.bookmarks
  let nodes1 := match graph with
    | none => []
    | some g => (insertSessions [] g.sessions).1
  let nodes2 := match current with
    | none => nodes1
    | some c => (insertNodes nodes1 c.nodes).1
  { nodes := nodes2, branches := branches, bookmarks := bookmarks }

/-- The last node carrying a given id in a node list: the version that a
completed insertion loop leaves in the dictionary. -/
def lastWithId (ns : List RawNode) (k : Str) : Option RawNode :=
  (ns.filter (fun rn => rn.id == some k)).getLast?

lemma dictGet_insertNodes_of_not_mem (acc : List (Str × RawNode))
    (ns : List RawNode) (k : Str)
    (hall : ∀ rn ∈ ns, rn.id ≠ none)
    (hk : ∀ rn ∈ ns, rn.id ≠ some k) :
    dictGet (insertNodes acc ns).1 k = dictGet acc k := by
  induction ns generalizing acc with
  | nil => rfl
  | cons n rest ih =>
    cases hid : n.id with
    | none => exact absurd hid (hall n (by simp))
    | some j =>
      simp only [insertNodes, hid]
      rw [ih _ (fun rn hrn => hall rn (by simp [hrn]))
        (fun rn hrn => hk rn (by simp [hrn]))]
      rw [dictGet_dictSet, if_neg]
      intro hkj
      apply hk n (by simp)
      rw [hid, hkj]

lemma getLast?_cons_of_ne_nil {α : Type} (a : α) {l : List α} (h : l ≠ []) :
    (a :: l).getLast? = l.getLast? := by
  have : a :: l = [a] ++ l := rfl
  rw [this, List.getLast?_append_of_ne_nil _ h]

lemma dictGet_insertNodes_of_mem (acc : List (Str × RawNode))
    (ns : List RawNode) (k : Str)
    (hall : ∀ rn ∈ ns, rn.id ≠ none)
    (hmem : ∃ rn ∈ ns, rn.id = some k) :
    dictGet (insertNodes acc ns).1 k = lastWithId ns k := by
  induction ns generalizing acc with
  | nil =>
    obtain ⟨rn, hrn, _⟩ := hmem
    simp at hrn
  | cons n rest ih =>
    cases hid : n.id with
    | none => exact absurd hid (hall n (by simp))
    | some j =>
      simp only [insertNodes, hid]
      by_cases hrest : ∃ rn ∈ rest, rn.id = some k
      · rw [ih _ (fun rn hrn => hall rn (by simp [hrn])) hrest]
        unfold lastWithId
        obtain ⟨x, hx, hxk⟩ := hrest
        have hxf : x ∈ rest.filter (fun rn => rn.id == some k) :=
          List.mem_filter.mpr ⟨hx, by simp [hxk]⟩
        have hfne : rest.filter (fun rn => rn.id == some k) ≠ [] :=
          List.ne_nil_of_mem hxf
        rw [List.filter_cons]
        by_cases hnk : (n.id == some k) = true
        · rw [if_pos hnk, getLast?_cons_of_ne_nil _ hfne]
        · rw [if_neg hnk]
      · obtain ⟨rn, hrn, hrnk⟩ := hmem
        rcases List.mem_cons.mp hrn with rfl | hrn'
        · have hjk : j = k := by
            rw [hid] at hrnk
            exact Option.some.inj hrnk
          subst hjk
          rw [dictGet_insertNodes_of_not_mem _ _ _
            (fun x hx => hall x (by simp [hx]))
            (fun x hx hc => hrest ⟨x, hx, hc⟩)]
          rw [dictGet_dictSet, if_pos rfl]
          unfold lastWithId
          rw [List.filter_cons, if_pos (by simp [hrnk])]
          have hfnil : rest.filter (fun x => x.id == some j) = [] := by
            rw [List.filter_eq_nil_iff]
            intro x hx hc
            exact hrest ⟨x, hx, by simpa using hc⟩
          rw [hfnil]
          rfl
        · exact absurd ⟨rn, hrn', hrnk⟩ hrest

lemma dictGet_insertNodes_some_origin (acc : List (Str × RawNode))
    (ns : List RawNode) (k : Str) (n : RawNode)
    (h : dictGet (insertNodes acc ns).1 k = some n) :
    dictGet acc k = some n ∨ ∃ rn ∈ ns, rn.id = some k ∧ rn = n := by
  induction ns generalizing acc with
  | nil => exact Or.inl h
  | cons x rest ih =>
    cases hid : x.id with
    | none =>
      simp only [insertNodes, hid] at h
      exact Or.inl h
    | some j =>
      simp only [insertNodes, hid] at h
      rcases ih _ h with h1 | ⟨rn, hrn, hrnk, hrneq⟩
      · rw [dictGet_dictSet] at h1
        by_cases hkj : k = j
        · subst hkj
          rw [if_pos rfl] at h1
          exact Or.inr ⟨x, by simp, hid, Option.some.inj h1⟩
        · rw [if_neg hkj] at h1
          exact Or.inl h1
      · exact Or.inr ⟨rn, by simp [hrn], hrnk, hrneq⟩

lemma dictGet_insertSessions_some_origin (acc : List (Str × RawNode))
    (ss : List SessionObj) (k : Str) (n : RawNode)
    (h : dictGet (insertSessions acc ss).1 k = some n) :
    dictGet acc k = some n ∨ ∃ s ∈ ss, ∃ rn ∈ s.nodes, rn.id = some k ∧ rn = n := by
  induction ss generalizing acc with
  | nil => exact Or.inl h
  | cons s rest ih =>
    simp only [insertSessions] at h
    by_cases hr : (insertNodes acc s.nodes).2 = true
    · rw [if_pos hr] at h
      rcases ih _ h with h1 | ⟨s', hs', rest'⟩
      · rcases dictGet_insertNodes_some_origin _ _ _ _ h1 with h2 | ⟨rn, hrn, hrnk, hrneq⟩
        · exact Or.inl h2
        · exact Or.inr ⟨s, by simp, rn, hrn, hrnk, hrneq⟩
      · exact Or.inr ⟨s', by simp [hs'], rest'⟩
    · rw [if_neg hr] at h
      rcases dictGet_insertNodes_some_origin _ _ _ _ h with h2 | ⟨rn, hrn, hrnk, hrneq⟩
      · exact Or.inl h2
      · exact Or.inr ⟨s, by simp, rn, hrn, hrnk, hrneq⟩

/-- Claim C3 (amended): provided every node record of the current-session
document carries an id, every id present in the current-session document
maps to the last current-session node bearing it (recency wins over the
aggregate), and ids absent from the current-session document are looked up
exactly as if only the aggregate document had been loaded. -/
theorem C3_current_session_precedence (g : GraphDoc) (c : CurrentDoc) (k : Str)
    (hall : ∀ rn ∈ c.nodes, rn.id ≠ none) :
    ((∃ rn ∈ c.nodes, rn.id = some k) →
      dictGet (load_steno_data (some g) (some c)).nodes k = lastWithId c.nodes k)
    ∧ ((∀ rn ∈ c.nodes, rn.id ≠ some k) →
      dictGet (load_steno_data (some g) (some c)).nodes k
        = dictGet (load_steno_data (some g) none).nodes k) := by
  constructor
  · intro hmem
    show dictGet (insertNodes (insertSessions [] g.sessions).1 c.nodes).1 k = _
    exact dictGet_insertNodes_of_mem _ _ _ hall hmem
  · intro hnk
    show dictGet (insertNodes (insertSessions [] g.sessions).1 c.nodes).1 k
      = dictGet (insertSessions [] g.sessions).1 k
    exact dictGet_insertNodes_of_not_mem _ _ _ hall hnk

/-- Aggregate document used by the C3 counterexample and witness: one
session holding node `n_1` with raw text `mk: agg`. -/
def aggDocA : GraphDoc :=
  { sessions := [{ nodes := [{ id := some (r"n_1".toList), raw := some (r"mk: agg".toList) }] }] }

/-- Current-session document whose first node record lacks an id: the
`KeyError` stops the current-session loop before `n_1` is reinserted. -/
def curDocBad : CurrentDoc :=
  { nodes := [{ raw := some (r"mk: broken".toList) },
              { id := some (r"n_1".toList), raw := some (r"mk: cur".toList) }] }

/-- Counterexample to claim C3 as stated: `n_1` is present in the
current-session document, yet the final mapping still holds the aggregate
version, because a current-session node without an id aborts the
current-session merge partway. -/
theorem C3_counterexample :
    (∃ rn ∈ curDocBad.nodes, rn.id = some (r"n_1".toList))
    ∧ dictGet (load_steno_data (some aggDocA) (some curDocBad)).nodes (r"n_1".toList)
        = some { id := some (r"n_1".toList), raw := some (r"mk: agg".toList) }
    ∧ dictGet (load_steno_data (some aggDocA) (some curDocBad)).nodes (r"n_1".toList)
        ≠ some { id := some (r"n_1".toList), raw := some (r"mk: cur".toList) } := by
  decide

/-- Well-formed current-session document for the C3 witness. -/
def curDocOk : CurrentDoc :=
  { nodes := [{ id := some (r"n_1".toList), raw := some (r"mk: cur".toList) }] }

/-- Witness for C3 at a concrete input. -/
theorem C3_current_session_precedence_witness :
    dictGet (load_steno_data (some aggDocA) (some curDocOk)).nodes (r"n_1".toList)
      = lastWithId curDocOk.nodes (r"n_1".toList) :=
  (C3_current_session_precedence aggDocA curDocOk (r"n_1".toList) (by decide)).1
    (by decide)

/-- Claim C4 (amended): an absent source, or one whose JSON fails to
decode, contributes nothing — without the aggregate document branches and
bookmarks are empty and every node in the result stems from the
current-session document, and without the current-session document every
node stems from some session of the aggregate document — and the load
always succeeds.  (When a source decodes but holds a node record without
an id, the extraction of that source stops there and keeps the
contributions already made; see the counterexample.) -/
theorem C4_failed_source_contributes_nothing :
    (∀ c, (load_steno_data none c).branches = []
      ∧ (load_steno_data none c).bookmarks = [])
    ∧ (∀ c k n, dictGet (load_steno_data none (some c)).nodes k = some n →
        ∃ rn ∈ c.nodes, rn.id = some k ∧ rn = n)
    ∧ (∀ g k n, dictGet (load_steno_data (some g) none).nodes k = some n →
        ∃ s ∈ g.sessions, ∃ rn ∈ s.nodes, rn.id = some k ∧ rn = n) := by
  refine ⟨fun c => ⟨rfl, rfl⟩, ?_, ?_⟩
  · intro c k n h
    have h0 : dictGet (insertNodes [] c.nodes).1 k = some n := h
    rcases dictGet_insertNodes_some_origin _ _ _ _ h0 with h1 | h2
    · exact absurd h1 (by simp [dictGet])
    · exact h2
  · intro g k n h
    have h0 : dictGet (insertSessions [] g.sessions).1 k = some n := h
    rcases dictGet_insertSessions_some_origin _ _ _ _ h0 with h1 | h2
    · exact absurd h1 (by simp [dictGet])
    · exact h2

/-- Aggregate document for the C4 counterexample: a branch, plus one
session whose first node is fine and whose second node lacks an id. -/
def aggDocBad : GraphDoc :=
  { sessions := [{ nodes := [{ id := some (r"n_1".toList), raw := some (r"mk: kept".toList) },
                             { raw := some (r"mk: broken".toList) }] }],
    branches := [{ name := some (r"main".toList) }],
    bookmarks := [] }

/-- Counterexample to claim C4 as stated: the aggregate source is malformed
(a node record without an id) and its extraction fails partway, yet the
returned graph keeps the source's branches and the node inserted before
the failure — a partial contribution from the failed source. -/
theorem C4_counterexample :
    (insertSessions [] aggDocBad.sessions).2 = false
    ∧ (load_steno_data (some aggDocBad) none).branches ≠ []
    ∧ dictGet (load_steno_data (some aggDocBad) none).nodes (r"n_1".toList)
        = some { id := some (r"n_1".toList), raw := some (r"mk: kept".toList) } := by
  decide

/-- Witness for C4 at a concrete input. -/
theorem C4_failed_source_contributes_nothing_witness :
    ∃ rn ∈ curDocOk.nodes, rn.id = some (r"n_1".toList)
      ∧ rn = { id := some (r"n_1".toList), raw := some (r"mk: cur".toList) } :=
  C4_failed_source_contributes_nothing.2.1 curDocOk (r"n_1".toList)
    { id := some (r"n_1".toList), raw := some (r"mk: cur".toList) } (by decide)

/-! Session log parsing (source lines 701-786). -/

/-- Content stored in a Message: a string or anything non-string (only this
distinction matters downstream, in the token estimate). -/
inductive MsgContent where
  | str (s : Str)
  | other
  deriving DecidableEq

/-- Keys a content block (an entry of a record's content list) may carry;
`none` models an absent key. -/
structure BlockFields where
  type : Option Str := none
  tool_use_id : Option Str := none
  content : Option MsgContent := none
  is_error : Option Bool := none
  thinking : Option Str := none
  text : Option Str := none
  name : Option Str := none
  input : Option MsgContent := none
  id : Option Str := none
  deriving DecidableEq

/-- An entry of a content list: a mapping, or any non-mapping value (a bare
string, number, ...), on which the source's `block.get` raises. -/
inductive Block where
  | obj (f : BlockFields)
  | nonObj
  deriving DecidableEq

def Block.isObj : Block → Bool
  | .obj _ => true
  | .nonObj => false

/-- The `content` value of a record's message payload: a plain string, a
list of blocks, or anything else. -/
inductive RecContent where
  | str (s : Str)
  | list (bs : List Block)
  | other
  deriving DecidableEq

/-- The message payload when it is a mapping. -/
structure Payload where
  content : Option RecContent := none
  deriving DecidableEq

/-- The `message` value of a record: a mapping (possibly without `content`),
or any non-mapping value, on which `msg.get` raises. -/
inductive PayloadVal where
  | obj (p : Payload)
  | nonObj
  deriving DecidableEq

/-- One decoded line of the session JSONL file. -/
structure Record where
  type : Option Str := none
  message : PayloadVal := .obj {}
  timestamp : Option Str := none
  uuid : Option Str := none
  deriving DecidableEq

/-- A normalized message as built by `parse_session`; unused slots keep the
defaults the statistics code would read back via `.get`. -/
structure Message where
  role : Str := []
  content : MsgContent := .str []
  timestamp : Str := []
  uuid : Str := []
  tool_use_id : Str := []
  is_error : Bool := false
  tool_name : Option Str := none
  tool_input : Option MsgContent := none
  tool_id : Option Str := none
  deriving DecidableEq

def toolResultMsg (f : BlockFields) (ts u : Str) : Message :=
  { role := r"tool_result".toList,
    tool_use_id := f.tool_use_id.getD [],
    content := f.content.getD (.str []),
    is_error := f.is_error.getD false,
    timestamp := ts, uuid := u }

def thinkingMsg (f : BlockFields) (ts u : Str) : Message :=
  { role := r"thinking".toList, content := .str (f.thinking.getD []),
    timestamp := ts, uuid := u }

def textMsg (f : BlockFields) (ts u : Str) : Message :=
  { role := r"assistant".toList, content := .str (f.text.getD []),
    timestamp := ts, uuid := u }

def toolUseMsg (f : BlockFields) (ts u : Str) : Message :=
  { role := r"tool_use".toList,
    tool_name := some (f.name.getD []),
    tool_input := some (f.input.getD .other),
    tool_id := some (f.id.getD []),
    timestamp := ts, uuid := u }

def userMsg (s ts u : Str) : Message :=
  { role := r"user".toList, content := .str s, timestamp := ts, uuid := u }

/-- The loop over a user record's content list (source lines 742-751): one
`tool_result` Message per entry tagged `tool_result`; a non-mapping entry
raises an uncaught error. -/
def userBlockMsgs (ts u : Str) : List Block → Except Unit (List Message)
  | [] => .ok []
  | .nonObj :: _ => .error ()
  | .obj f :: rest => do
    let ms ← userBlockMsgs ts u rest
    if f.type == some (r"tool_result".toList) then
      pure (toolResultMsg f ts u :: ms)
    else
      pure ms

/-- The loop over an assistant record's content list (source lines
755-779). -/
def assistantBlockMsgs (ts u : Str) : List Block → Except Unit (List Message)
  | [] => .ok []
  | .nonObj :: _ => .error ()
  | .obj f :: rest => do
    let ms ← assistantBlockMsgs ts u rest
    let bt := f.type.getD []
    if bt == r"thinking".toList then pure (thinkingMsg f ts u :: ms)
    else if bt == r"text".toList then pure (textMsg f ts u :: ms)
    else if bt == r"tool_use".toList then pure (toolUseMsg f ts u :: ms)
    else pure ms

/-- State threaded through the record loop of `parse_session`. -/
structure ParseState where
  messages : List Message := []
  first_timestamp : Option Str := none
  deriving DecidableEq

/-- The body of `parse_session`'s per-line loop for one decoded record
(source lines 714-779); an uncaught exception is an `Except.error`. -/
def parseRecord (st : ParseState) (entry : Record) : Except Unit ParseState :=
    let t := entry.type.getD []
    if t == r"summary".toList || t == r"file-history-snapshot".toList then .ok st
    else if t != r"user".toList && t != r"assistant".toList then .ok st
    else
      match entry.message with
      | .nonObj => .error ()
      | .obj p =>
        let content := p.content.getD (.str [])
        let ts := entry.timestamp.getD []
        let u := entry.uuid.getD []
        let st1 := if st.first_timestamp = none ∧ ts ≠ [] then
            { st with first_timestamp := some ts } else st
        if t == r"user".toList then
          match content with
          | .str s => .ok { st1 with messages := st1.messages ++ [userMsg s ts u] }
          | .list bs =>
            match userBlockMsgs ts u bs with
            | .error e => .error e
            | .ok ms => .ok { st1 with messages := st1.messages ++ ms }
          | .other => .ok st1
        else
          match content with
          | .list bs =>
            match assistantBlockMsgs ts u bs with
            | .error e => .error e
            | .ok ms => .ok { st1 with messages := st1.messages ++ ms }
          | _ => .ok st1

/-- One line of the per-line loop including the decode step: a line that
fails to decode (`none`) is skipped (source lines 709-712). -/
def parseLine (st : ParseState) (line : Option Record) : Except Unit ParseState :=
  match line with
  | none => .ok st
  | some entry => parseRecord st entry

/-- Source `parse_session` (lines 701-786) over the decoded lines. -/
def parse_session (lines : List (Option Record)) : Except Unit ParseState :=
  lines.foldlM parseLine {}

lemma except_bind_ok {α β : Type} (a : α) (f : α → Except Unit β) :
    (Except.ok a >>= f) = f a := rfl

lemma except_bind_error {α β : Type} (e : Unit) (f : α → Except Unit β) :
    ((Except.error e : Except Unit α) >>= f) = Except.error e := rfl

lemma except_pure_eq {α : Type} (a : α) : (pure a : Except Unit α) = .ok a := rfl

lemma parseLine_skip (st : ParseState) (entry : Record)
    (hu : entry.type.getD [] ≠ r"user".toList)
    (ha : entry.type.getD [] ≠ r"assistant".toList) :
    parseLine st (some entry) = .ok st := by
  show parseRecord st entry = .ok st
  simp only [parseRecord]
  by_cases hs : (entry.type.getD [] == r"summary".toList
      || entry.type.getD [] == r"file-history-snapshot".toList) = true
  · rw [if_pos hs]
  · rw [if_neg hs, if_pos]
    simp only [Bool.and_eq_true, bne_iff_ne, ne_eq]
    exact ⟨by simpa using hu, by simpa using ha⟩

lemma foldlM_parseLine_skip (pre post : List (Option Record)) (entry : Record)
    (st : ParseState) (h : ∀ s : ParseState, parseLine s (some entry) = .ok s) :
    List.foldlM parseLine st (pre ++ some entry :: post)
      = List.foldlM parseLine st (pre ++ post) := by
  induction pre generalizing st with
  | nil =>
    simp only [List.nil_append, List.foldlM_cons, h, except_bind_ok]
  | cons x pre ih =>
    simp only [List.cons_append, List.foldlM_cons]
    cases hx : parseLine st x with
    | error e => simp only [hx, except_bind_error]
    | ok s => simp only [hx, except_bind_ok, ih]

/-- Claim C8: a record whose type tag is `summary` or
`file-history-snapshot`, or anything other than `user`/`assistant`, emits no
Message regardless of its payload shape: the per-line step leaves the state
untouched, and splicing such a record into a session changes nothing. -/
theorem C8_non_message_records_dropped (st : ParseState) (entry : Record)
    (pre post : List (Option Record))
    (h : entry.type.getD [] ≠ r"user".toList
      ∧ entry.type.getD [] ≠ r"assistant".toList) :
    parseLine st (some entry) = .ok st
    ∧ parse_session (pre ++ some entry :: post) = parse_session (pre ++ post) := by
  have hskip : ∀ s : ParseState, parseLine s (some entry) = .ok s :=
    fun s => parseLine_skip s entry h.1 h.2
  exact ⟨hskip st, foldlM_parseLine_skip pre post entry _ hskip⟩

/-- Witness for C8 at a concrete input: a `summary` record with a
non-mapping payload. -/
theorem C8_non_message_records_dropped_witness :
    parseLine {} (some { type := some (r"summary".toList), message := PayloadVal.nonObj }) = .ok {}
    ∧ parse_session ([some { type := some (r"summary".toList), message := PayloadVal.nonObj },
        some { type := some (r"file-history-snapshot".toList) }]
          ++ some { type := some (r"banana".toList), message := PayloadVal.nonObj } :: [])
      = parse_session ([some { type := some (r"summary".toList), message := PayloadVal.nonObj },
          some { type := some (r"file-history-snapshot".toList) }] ++ []) :=
  C8_non_message_records_dropped {}
    { type := some (r"banana".toList), message := PayloadVal.nonObj }
    [some { type := some (r"summary".toList), message := PayloadVal.nonObj },
     some { type := some (r"file-history-snapshot".toList) }] []
    ⟨by decide, by decide⟩

/-- The entry shapes a user record's content list recognizes. -/
def userRecognized (b : Block) : Bool :=
  match b with
  | .obj f => f.type == some (r"tool_result".toList)
  | .nonObj => false

/-- The entry shapes an assistant record's content list recognizes. -/
def assistantRecognized (b : Block) : Bool :=
  match b with
  | .obj f => f.type.getD [] == r"thinking".toList
      || f.type.getD [] == r"text".toList
      || f.type.getD [] == r"tool_use".toList
  | .nonObj => false

lemma userBlockMsgs_filter (ts u : Str) (bs : List Block)
    (h : ∀ b ∈ bs, b.isObj = true) :
    userBlockMsgs ts u bs = userBlockMsgs ts u (bs.filter userRecognized) := by
  induction bs with
  | nil => rfl
  | cons b rest ih =>
    have hobj := h b (by simp)
    cases b with
    | nonObj => simp [Block.isObj] at hobj
    | obj f =>
      have ih' := ih (fun x hx => h x (by simp [hx]))
      rw [List.filter_cons]
      by_cases hrec : userRecognized (.obj f) = true
      · rw [if_pos hrec]
        simp only [userBlockMsgs]
        rw [ih']
      · rw [if_neg hrec]
        have hcond : (f.type == some (r"tool_result".toList)) = false := by
          simpa [userRecognized] using hrec
        simp only [userBlockMsgs, hcond]
        rw [← ih']
        cases hres : userBlockMsgs ts u rest with
        | error e => simp [except_bind_error]
        | ok ms => simp [except_bind_ok, except_pure_eq]

lemma assistantBlockMsgs_filter (ts u : Str) (bs : List Block)
    (h : ∀ b ∈ bs, b.isObj = true) :
    assistantBlockMsgs ts u bs = assistantBlockMsgs ts u (bs.filter assistantRecognized) := by
  induction bs with
  | nil => rfl
  | cons b rest ih =>
    have hobj := h b (by simp)
    cases b with
    | nonObj => simp [Block.isObj] at hobj
    | obj f =>
      have ih' := ih (fun x hx => h x (by simp [hx]))
      rw [List.filter_cons]
      by_cases hrec : assistantRecognized (.obj f) = true
      · rw [if_pos hrec]
        simp only [assistantBlockMsgs]
        rw [ih']
      · rw [if_neg hrec]
        have hrec' : (f.type.getD [] == r"thinking".toList
            || f.type.getD [] == r"text".toList
            || f.type.getD [] == r"tool_use".toList) = false := by
          simpa [assistantRecognized] using hrec
        simp only [Bool.or_eq_false_iff] at hrec'
        obtain ⟨⟨hth, htx⟩, htu⟩ := hrec'
        simp only [assistantBlockMsgs, hth, htx, htu]
        rw [← ih']
        cases hres : assistantBlockMsgs ts u rest with
        | error e => simp [except_bind_error]
        | ok ms => simp [except_bind_ok, except_pure_eq]

lemma userBlockMsgs_ok (ts u : Str) (bs : List Block)
    (h : ∀ b ∈ bs, b.isObj = true) :
    ∃ ms, userBlockMsgs ts u bs = .ok ms := by
  induction bs with
  | nil => exact ⟨[], rfl⟩
  | cons b rest ih =>
    obtain ⟨ms, hms⟩ := ih (fun x hx => h x (by simp [hx]))
    cases b with
    | nonObj => exact absurd (h Block.nonObj (by simp)) (by simp [Block.isObj])
    | obj f =>
      by_cases hcond : f.type = some (r"tool_result".toList)
      · exact ⟨toolResultMsg f ts u :: ms,
          by simp [userBlockMsgs, hms, hcond, except_bind_ok, except_pure_eq]⟩
      · refine ⟨ms, ?_⟩
        simp only [String.toList] at hcond
        simp [userBlockMsgs, hms, hcond, except_bind_ok, except_pure_eq]

lemma assistantBlockMsgs_ok (ts u : Str) (bs : List Block)
    (h : ∀ b ∈ bs, b.isObj = true) :
    ∃ ms, assistantBlockMsgs ts u bs = .ok ms := by
  induction bs with
  | nil => exact ⟨[], rfl⟩
  | cons b rest ih =>
    obtain ⟨ms, hms⟩ := ih (fun x hx => h x (by simp [hx]))
    cases b with
    | nonObj => exact absurd (h Block.nonObj (by simp)) (by simp [Block.isObj])
    | obj f =>
      by_cases h1 : f.type.getD [] = r"thinking".toList
      · exact ⟨thinkingMsg f ts u :: ms,
          by simp [assistantBlockMsgs, hms, h1, except_bind_ok, except_pure_eq]⟩
      · by_cases h2 : f.type.getD [] = r"text".toList
        · exact ⟨textMsg f ts u :: ms,
            by simp [assistantBlockMsgs, hms, h1, h2, except_bind_ok, except_pure_eq]⟩
        · by_cases h3 : f.type.getD [] = r"tool_use".toList
          · exact ⟨toolUseMsg f ts u :: ms,
              by simp [assistantBlockMsgs, hms, h1, h2, h3, except_bind_ok, except_pure_eq]⟩
          · refine ⟨ms, ?_⟩
            simp only [String.toList] at h1 h2 h3
            simp [assistantBlockMsgs, hms, h1, h2, h3, except_bind_ok, except_pure_eq]

/-- Claim C5 (amended): content-list entries that are mappings with an
unrecognized (or missing) type tag produce no Message and no failure —
dropping them leaves the extraction result unchanged, and extraction of a
list of mapping entries always succeeds.  An entry that is not a mapping,
however, raises an uncaught error (see the counterexample). -/
theorem C5_unrecognized_entries_ignored (ts u : Str) (bs : List Block)
    (h : ∀ b ∈ bs, b.isObj = true) :
    userBlockMsgs ts u bs = userBlockMsgs ts u (bs.filter userRecognized)
    ∧ assistantBlockMsgs ts u bs = assistantBlockMsgs ts u (bs.filter assistantRecognized)
    ∧ (∃ ms, userBlockMsgs ts u bs = .ok ms)
    ∧ (∃ ms, assistantBlockMsgs ts u bs = .ok ms) :=
  ⟨userBlockMsgs_filter ts u bs h, assistantBlockMsgs_filter ts u bs h,
    userBlockMsgs_ok ts u bs h, assistantBlockMsgs_ok ts u bs h⟩

/-- A user record whose content list holds a non-mapping entry (e.g. a bare
string). -/
def userRecWithNonObjEntry : Record :=
  { type := some (r"user".toList),
    message := .obj { content := some (.list [Block.nonObj]) } }

/-- Counterexample to claim C5 as stated: an entry of non-mapping shape is
not ignored — it makes the whole run fail. -/
theorem C5_counterexample :
    parse_session [some userRecWithNonObjEntry] = .error () := rfl

/-- Witness for C5 at a concrete input: a mapping entry tagged `banana` is
ignored by both extractors and causes no failure. -/
theorem C5_unrecognized_entries_ignored_witness :
    userBlockMsgs [] [] [Block.obj { type := some (r"banana".toList) }]
      = userBlockMsgs [] [] ([Block.obj { type := some (r"banana".toList) }].filter userRecognized)
    ∧ assistantBlockMsgs [] [] [Block.obj { type := some (r"banana".toList) }]
      = assistantBlockMsgs [] []
          ([Block.obj { type := some (r"banana".toList) }].filter assistantRecognized)
    ∧ (∃ ms, userBlockMsgs [] [] [Block.obj { type := some (r"banana".toList) }] = .ok ms)
    ∧ (∃ ms, assistantBlockMsgs [] [] [Block.obj { type := some (r"banana".toList) }] = .ok ms) :=
  C5_unrecognized_entries_ignored [] [] [Block.obj { type := some (r"banana".toList) }]
    (by decide)

/-! Session statistics (source lines 793-849). -/

/-- The stats dictionary built by `calculate_session_stats`. -/
structure SessionStats where
  total_messages : Nat := 0
  user_messages : Nat := 0
  assistant_messages : Nat := 0
  thinking_blocks : Nat := 0
  tool_calls : Nat := 0
  tool_results : Nat := 0
  tools_used : List (Str × Nat) := []
  estimated_tokens : Nat := 0
  duration_seconds : Int := 0
  first_timestamp : Option Str := none
  last_timestamp : Option Str := none
  deriving DecidableEq

/-- Token contribution of one content value: `len(content)//4` for a string
(the source adds nothing for non-string content, which equals adding 0). -/
def tokenOf : MsgContent → Nat
  | .str sc => sc.length / 4
  | .other => 0

/-- Timestamp tracking of the stats loop (source lines 815-818). -/
def tsUpdate (s : SessionStats) (m : Message) : SessionStats :=
  if m.timestamp ≠ [] then
    { s with
      first_timestamp :=
        if s.first_timestamp = none then some m.timestamp else s.first_timestamp,
      last_timestamp := some m.timestamp }
  else s

/-- Per-role counting of the stats loop (source lines 821-838). -/
def roleUpdate (s : SessionStats) (m : Message) : SessionStats :=
  if m.role == r"user".toList then
    { s with user_messages := s.user_messages + 1,
             estimated_tokens := s.estimated_tokens + tokenOf m.content }
  else if m.role == r"assistant".toList then
    { s with assistant_messages := s.assistant_messages + 1,
             estimated_tokens := s.estimated_tokens + tokenOf m.content }
  else if m.role == r"thinking".toList then
    { s with thinking_blocks := s.thinking_blocks + 1,
             estimated_tokens := s.estimated_tokens + tokenOf m.content }
  else if m.role == r"tool_use".toList then
    { s with tool_calls := s.tool_calls + 1,
             tools_used :=
               dictSet s.tools_used (m.tool_name.getD (r"Unknown".toList))
                 ((dictGet s.tools_used (m.tool_name.getD (r"Unknown".toList))).getD 0 + 1) }
  else if m.role == r"tool_result".toList then
    { s with tool_results := s.tool_results + 1 }
  else s

/-- One iteration of the stats loop (source lines 809-838). -/
def statsStep (s : SessionStats) (m : Message) : SessionStats :=
  roleUpdate (tsUpdate s m) m

/-- A parsed `datetime.fromisoformat` value, reduced to what the source
observes: a microsecond position on a common timeline (proleptic Gregorian
calendar, offset already applied) and whether the value is offset-aware.
Subtracting a naive from an aware datetime raises in Python. -/
structure PyDateTime where
  micros : Int
  aware : Bool
  deriving DecidableEq

def digitVal (c : Char) : Option Nat :=
  if c.isDigit then some (c.toNat - 48) else none

/-- Read exactly `k` digits, most significant first. -/
def readDigits (k : Nat) (acc : Nat) (cs : Str) : Option (Nat × Str) :=
  match k with
  | 0 => some (acc, cs)
  | k' + 1 =>
    match cs with
    | [] => none
    | c :: rest =>
      match digitVal c with
      | none => none
      | some d => readDigits k' (acc * 10 + d) rest

def expectChar (c : Char) : Str → Option Str
  | [] => none
  | x :: rest => if x = c then some rest else none

def isLeapYear (y : Nat) : Bool :=
  y % 4 == 0 && (y % 100 != 0 || y % 400 == 0)

def daysInMonth (y m : Nat) : Nat :=
  if m = 2 then (if isLeapYear y then 29 else 28)
  else if m = 4 ∨ m = 6 ∨ m = 9 ∨ m = 11 then 30
  else 31

def daysBeforeMonth (y m : Nat) : Nat :=
  let base := [0, 31, 59, 90, 120, 151, 181, 212, 243, 273, 304, 334].getD (m - 1) 0
  if 2 < m ∧ isLeapYear y then base + 1 else base

/-- The proleptic Gregorian ordinal of a date, as in `datetime.toordinal`
(day 1 is 0001-01-01). -/
def toOrdinal (y m d : Nat) : Nat :=
  365 * (y - 1) + (y - 1) / 4 - (y - 1) / 100 + (y - 1) / 400 + daysBeforeMonth y m + d

def digitsToNat (ds : Str) : Nat := ds.foldl (fun a c => a * 10 + (c.toNat - 48)) 0

/-- A UTC offset suffix `±HH:MM`; returns the offset in seconds. -/
def parseOffset (cs : Str) : Option (Int × Str) :=
  match cs with
  | [] => none
  | c :: rest =>
    if c = '+' ∨ c = '-' then do
      let (hh, r1) ← readDigits 2 0 rest
      let r2 ← expectChar ':' r1
      let (mm, r3) ← readDigits 2 0 r2
      if hh ≤ 23 ∧ mm ≤ 59 then
        let secs : Int := Int.ofNat (hh * 3600 + mm * 60)
        some (if c = '-' then -secs else secs, r3)
      else none
    else none

/-- Model of `datetime.fromisoformat` on the extended ISO-8601 profile the
source relies on: `YYYY-MM-DD`, optionally followed by a `T` or space
separator and `HH:MM:SS` with an optional 1-6 digit fraction, optionally
followed by a `±HH:MM` offset.  Malformed input yields `none`
(`ValueError` in Python, caught by the source's bare `except`). -/
def parseDT (s : Str) : Option PyDateTime := do
  let (y, r1) ← readDigits 4 0 s
  let r2 ← expectChar '-' r1
  let (mo, r3) ← readDigits 2 0 r2
  let r4 ← expectChar '-' r3
  let (d, r5) ← readDigits 2 0 r4
  if 1 ≤ y ∧ 1 ≤ mo ∧ mo ≤ 12 ∧ 1 ≤ d ∧ d ≤ daysInMonth y mo then
    let dateMicros : Int := (Int.ofNat (toOrdinal y mo d)) * 86400000000
    match r5 with
    | [] => some { micros := dateMicros, aware := false }
    | sep :: r6 =>
      if sep = 'T' ∨ sep = ' ' then do
        let (hh, t1) ← readDigits 2 0 r6
        let t2 ← expectChar ':' t1
        let (mi, t3) ← readDigits 2 0 t2
        let t4 ← expectChar ':' t3
        let (ss, t5) ← readDigits 2 0 t4
        if hh ≤ 23 ∧ mi ≤ 59 ∧ ss ≤ 59 then do
          let (frac, t6) ←
            match t5 with
            | c :: rest =>
              if c = '.' ∨ c = ',' then
                let ds := rest.takeWhile Char.isDigit
                if ds.length = 0 ∨ 6 < ds.length then none
                else some (digitsToNat ds * 10 ^ (6 - ds.length),
                  rest.dropWhile Char.isDigit)
              else some ((0 : Nat), t5)
            | [] => some ((0 : Nat), t5)
          let timeMicros : Int := dateMicros
            + (Int.ofNat (hh * 3600 + mi * 60 + ss)) * 1000000 + Int.ofNat frac
          match t6 with
          | [] => some { micros := timeMicros, aware := false }
          | _ =>
            match parseOffset t6 with
            | some (off, []) =>
              some { micros := timeMicros - off * 1000000, aware := true }
            | _ => none
        else none
      else none
  else none

/-- Python `s.replace("Z", "+00:00")`: every `Z` is replaced. -/
def replaceZ (s : Str) : Str :=
  s.flatMap (fun c => if c = 'Z' then r"+00:00".toList else [c])

/-- Python `int((last - first).total_seconds())`: whole seconds, truncated
toward zero. -/
def truncSecs (micros : Int) : Int := Int.tdiv micros 1000000

/-- The dictionary literal that opens `calculate_session_stats` (source
lines 795-807). -/
def statsInit (msgs : List Message) : SessionStats := { total_messages := msgs.length }

/-- Source `calculate_session_stats` (lines 793-849). -/
def calculate_session_stats (msgs : List Message) : SessionStats :=
  let s := msgs.foldl statsStep (statsInit msgs)
  let d : Int :=
    match s.first_timestamp, s.last_timestamp with
    | some f, some l =>
      if f ≠ [] ∧ l ≠ [] then
        match parseDT (replaceZ f) with
        | none => 0
        | some a =>
          match parseDT (replaceZ l) with
          | none => 0
          | some b => if a.aware = b.aware then truncSecs (b.micros - a.micros) else 0
      else 0
    | _, _ => 0
  { s with duration_seconds := d }

/-- Roles whose string content feeds the token estimate. -/
def isTokenRole (m : Message) : Bool :=
  m.role == r"user".toList || m.role == r"assistant".toList
    || m.role == r"thinking".toList

/-- Token contribution of one message. -/
def tokenContrib (m : Message) : Nat :=
  if isTokenRole m then tokenOf m.content else 0

def MsgContent.isStr : MsgContent → Bool
  | .str _ => true
  | .other => false

def contentLen (m : Message) : Nat :=
  match m.content with
  | .str sc => sc.length
  | .other => 0

/-- Token estimate worded as in the spec: the sum, over the messages whose
role is `user`, `assistant` or `thinking` and whose content is a string, of
`len(content) // 4`. -/
def specTokens (msgs : List Message) : Nat :=
  ((msgs.filter (fun m => isTokenRole m && m.content.isStr)).map
    (fun m => contentLen m / 4)).sum

lemma tsUpdate_tokens (s : SessionStats) (m : Message) :
    (tsUpdate s m).estimated_tokens = s.estimated_tokens := by
  unfold tsUpdate
  split <;> rfl

lemma roleUpdate_tokens (s : SessionStats) (m : Message) :
    (roleUpdate s m).estimated_tokens = s.estimated_tokens + tokenContrib m := by
  unfold roleUpdate tokenContrib isTokenRole
  by_cases h1 : m.role = r"user".toList
  · simp [h1]
  · by_cases h2 : m.role = r"assistant".toList
    · simp [h1, h2]
    · by_cases h3 : m.role = r"thinking".toList
      · simp [h1, h2, h3]
      · by_cases h4 : m.role = r"tool_use".toList
        · simp [h1, h2, h3, h4]
        · by_cases h5 : m.role = r"tool_result".toList
          · simp [h1, h2, h3, h4, h5]
          · simp only [String.toList] at h1 h2 h3 h4 h5
            simp [h1, h2, h3, h4, h5]

lemma statsStep_tokens (s : SessionStats) (m : Message) :
    (statsStep s m).estimated_tokens = s.estimated_tokens + tokenContrib m := by
  unfold statsStep
  rw [roleUpdate_tokens, tsUpdate_tokens]

lemma specTokens_eq_map_sum (msgs : List Message) :
    specTokens msgs = (msgs.map tokenContrib).sum := by
  induction msgs with
  | nil => rfl
  | cons m rest ih =>
    simp only [specTokens, List.filter_cons, List.map_cons, List.sum_cons] at ih ⊢
    by_cases hc : (isTokenRole m && m.content.isStr) = true
    · rw [if_pos hc, List.map_cons, List.sum_cons, ih]
      have hc' := hc
      rw [Bool.and_eq_true] at hc'
      obtain ⟨h1, h2⟩ := hc'
      have hct : contentLen m / 4 = tokenContrib m := by
        unfold tokenContrib
        rw [if_pos h1]
        cases hmc : m.content with
        | str sc => simp [tokenOf, contentLen, hmc]
        | other => rw [hmc] at h2; exact absurd h2 (by simp [MsgContent.isStr])
      rw [hct]
    · rw [if_neg hc, ih]
      have hz : tokenContrib m = 0 := by
        unfold tokenContrib
        by_cases h1 : isTokenRole m = true
        · rw [if_pos h1]
          cases hmc : m.content with
          | str sc =>
            exfalso
            exact hc (by rw [Bool.and_eq_true]; exact ⟨h1, by simp [hmc, MsgContent.isStr]⟩)
          | other => simp [tokenOf]
        · rw [if_neg h1]
      rw [hz]
      omega

lemma foldl_tokens (msgs : List Message) (s0 : SessionStats) :
    (msgs.foldl statsStep s0).estimated_tokens
      = s0.estimated_tokens + (msgs.map tokenContrib).sum := by
  induction msgs generalizing s0 with
  | nil => simp
  | cons m rest ih =>
    simp only [List.foldl_cons, List.map_cons, List.sum_cons]
    rw [ih, statsStep_tokens]
    omega

/-- Claim C6: the estimated token count is the sum of `len(content) // 4`
over all messages with role `user`, `assistant` or `thinking` and string
content; non-string content contributes nothing, and strings shorter than
four characters contribute nothing. -/
theorem C6_estimated_tokens_sum (msgs : List Message) :
    (calculate_session_stats msgs).estimated_tokens = specTokens msgs := by
  have h1 : (calculate_session_stats msgs).estimated_tokens
      = (msgs.foldl statsStep (statsInit msgs)).estimated_tokens := rfl
  rw [h1, foldl_tokens, specTokens_eq_map_sum]
  simp [statsInit]

/-- First non-empty timestamp of a message sequence. -/
def firstNE (msgs : List Message) : Option Str :=
  ((msgs.map Message.timestamp).filter (fun t => t != [])).head?

/-- Last non-empty timestamp of a message sequence. -/
def lastNE (msgs : List Message) : Option Str :=
  ((msgs.map Message.timestamp).filter (fun t => t != [])).getLast?

lemma roleUpdate_first (s : SessionStats) (m : Message) :
    (roleUpdate s m).first_timestamp = s.first_timestamp := by
  unfold roleUpdate
  repeat (first | rfl | split)

lemma roleUpdate_last (s : SessionStats) (m : Message) :
    (roleUpdate s m).last_timestamp = s.last_timestamp := by
  unfold roleUpdate
  repeat (first | rfl | split)

lemma tsUpdate_first (s : SessionStats) (m : Message) :
    (tsUpdate s m).first_timestamp
      = if m.timestamp ≠ [] ∧ s.first_timestamp = none then some m.timestamp
        else s.first_timestamp := by
  unfold tsUpdate
  by_cases ht : m.timestamp = []
  · simp [ht]
  · by_cases hf : s.first_timestamp = none
    · simp [ht, hf]
    · simp [ht, hf]

lemma tsUpdate_last (s : SessionStats) (m : Message) :
    (tsUpdate s m).last_timestamp
      = if m.timestamp ≠ [] then some m.timestamp else s.last_timestamp := by
  unfold tsUpdate
  by_cases ht : m.timestamp = [] <;> simp [ht]

lemma statsStep_first (s : SessionStats) (m : Message) :
    (statsStep s m).first_timestamp
      = if m.timestamp ≠ [] ∧ s.first_timestamp = none then some m.timestamp
        else s.first_timestamp := by
  unfold statsStep
  rw [roleUpdate_first, tsUpdate_first]

lemma statsStep_last (s : SessionStats) (m : Message) :
    (statsStep s m).last_timestamp
      = if m.timestamp ≠ [] then some m.timestamp else s.last_timestamp := by
  unfold statsStep
  rw [roleUpdate_last, tsUpdate_last]

lemma foldl_first (msgs : List Message) (s0 : SessionStats) :
    (msgs.foldl statsStep s0).first_timestamp
      = s0.first_timestamp.or (firstNE msgs) := by
  induction msgs generalizing s0 with
  | nil =>
    simp [firstNE, Option.or_none]
  | cons m rest ih =>
    simp only [List.foldl_cons]
    rw [ih, statsStep_first]
    by_cases ht : m.timestamp = []
    · have hfe : firstNE (m :: rest) = firstNE rest := by
        simp [firstNE, List.filter_cons, ht]
      rw [hfe]
      simp [ht]
    · by_cases hf : s0.first_timestamp = none
      · rw [if_pos ⟨ht, hf⟩, hf]
        have hfe : firstNE (m :: rest) = some m.timestamp := by
          simp [firstNE, List.filter_cons, bne_iff_ne.mpr ht]
        rw [hfe]
        simp
      · rw [if_neg (fun hcontra => hf hcontra.2)]
        cases hsf : s0.first_timestamp with
        | none => exact absurd hsf hf
        | some x => simp

lemma foldl_last (msgs : List Message) (s0 : SessionStats) :
    (msgs.foldl statsStep s0).last_timestamp
      = (lastNE msgs).or s0.last_timestamp := by
  induction msgs generalizing s0 with
  | nil =>
    simp [lastNE]
  | cons m rest ih =>
    simp only [List.foldl_cons]
    rw [ih, statsStep_last]
    by_cases ht : m.timestamp = []
    · have hle : lastNE (m :: rest) = lastNE rest := by
        simp [lastNE, List.filter_cons, ht]
      rw [hle]
      simp [ht]
    · have hcons : (m :: rest).map Message.timestamp = m.timestamp :: rest.map Message.timestamp :=
        rfl
      cases hLrest : lastNE rest with
      | some x =>
        have hne : ((rest.map Message.timestamp).filter (fun t => t != [])) ≠ [] := by
          intro h0
          unfold lastNE at hLrest
          rw [h0] at hLrest
          simp at hLrest
        have hle : lastNE (m :: rest) = some x := by
          unfold lastNE
          rw [hcons, List.filter_cons, if_pos (by simp [bne_iff_ne.mpr ht])]
          rw [getLast?_cons_of_ne_nil _ hne]
          exact hLrest
        rw [hle]
        simp
      | none =>
        have hnil : ((rest.map Message.timestamp).filter (fun t => t != [])) = [] := by
          have := hLrest
          unfold lastNE at this
          exact List.getLast?_eq_none_iff.mp this
        have hle : lastNE (m :: rest) = some m.timestamp := by
          unfold lastNE
          rw [hcons, List.filter_cons, if_pos (by simp [bne_iff_ne.mpr ht]), hnil]
          rfl
        rw [hle]
        simp [ht]

/-- Duration worded as in the (amended) spec, applied to the first and last
non-empty timestamps: 0 when either is missing or fails to parse or when
exactly one of them carries a UTC offset, and the truncated difference in
whole seconds otherwise. -/
def durationSpec (f l : Option Str) : Int :=
  match f, l with
  | some a, some b =>
    if a ≠ [] ∧ b ≠ [] then
      match parseDT (replaceZ a) with
      | none => 0
      | some ta =>
        match parseDT (replaceZ b) with
        | none => 0
        | some tb => if ta.aware = tb.aware then truncSecs (tb.micros - ta.micros) else 0
    else 0
  | _, _ => 0

/-- Message pair realizing the spec's 90-second example. -/
def exStatsMsg1 : Message :=
  { role := r"user".toList, timestamp := r"2024-01-01T00:00:00Z".toList }

def exStatsMsg2 : Message :=
  { role := r"user".toList, timestamp := r"2024-01-01T00:01:30Z".toList }

/-- Claim C7 (amended): the duration is computed from the first and last
non-empty timestamps of the sequence, parsed as ISO-8601 with a literal `Z`
replaced by `+00:00`; it is 0 when either timestamp is missing or fails to
parse, and also 0 when one timestamp carries a UTC offset and the other
does not (the offset-aware/naive subtraction raises and is swallowed);
otherwise it is the difference in whole seconds, and the spec's example
yields exactly 90 seconds. -/
theorem C7_duration_from_first_last :
    (∀ msgs : List Message,
      (calculate_session_stats msgs).duration_seconds
        = durationSpec (firstNE msgs) (lastNE msgs))
    ∧ (calculate_session_stats [exStatsMsg1, exStatsMsg2]).duration_seconds = 90 := by
  constructor
  · intro msgs
    have hf : (msgs.foldl statsStep (statsInit msgs)).first_timestamp = firstNE msgs := by
      rw [foldl_first]
      rfl
    have hl : (msgs.foldl statsStep (statsInit msgs)).last_timestamp = lastNE msgs := by
      rw [foldl_last]
      simp [statsInit]
    show (match (msgs.foldl statsStep (statsInit msgs)).first_timestamp,
            (msgs.foldl statsStep (statsInit msgs)).last_timestamp with
          | some f, some l =>
            if f ≠ [] ∧ l ≠ [] then
              match parseDT (replaceZ f) with
              | none => 0
              | some a =>
                match parseDT (replaceZ l) with
                | none => 0
                | some b =>
                  if a.aware = b.aware then truncSecs (b.micros - a.micros) else 0
            else 0
          | _, _ => (0 : Int))
        = durationSpec (firstNE msgs) (lastNE msgs)
    rw [hf, hl]
    rfl
  · decide

/-- Duration as the claim literally words it: parse both timestamps, and
whenever both parse take last minus first in whole seconds (no
offset-awareness caveat). -/
def durationClaimed (f l : Option Str) : Int :=
  match f, l with
  | some a, some b =>
    match parseDT (replaceZ a), parseDT (replaceZ b) with
    | some ta, some tb => truncSecs (tb.micros - ta.micros)
    | _, _ => 0
  | _, _ => 0

/-- A message with an offset-naive timestamp and one with an offset-aware
timestamp one hour later. -/
def naiveTsMsg : Message :=
  { role := r"user".toList, timestamp := r"2024-01-01T00:00:00".toList }

def awareTsMsg : Message :=
  { role := r"user".toList, timestamp := r"2024-01-01T01:00:00Z".toList }

/-- Counterexample to claim C7 as stated: both timestamps parse as
ISO-8601, neither is missing, yet the computed duration is 0 rather than
last minus first (3600 s), because subtracting an offset-naive from an
offset-aware datetime raises and the bare `except` leaves the duration at
0. -/
theorem C7_counterexample :
    (parseDT (replaceZ (r"2024-01-01T00:00:00".toList))).isSome = true
    ∧ (parseDT (replaceZ (r"2024-01-01T01:00:00Z".toList))).isSome = true
    ∧ (calculate_session_stats [naiveTsMsg, awareTsMsg]).duration_seconds = 0
    ∧ durationClaimed (firstNE [naiveTsMsg, awareTsMsg]) (lastNE [naiveTsMsg, awareTsMsg])
        = 3600
    ∧ (0 : Int) ≠ 3600 := by
  decide
